import Mathlib

/-!
Verification development for the openpi observation-distillation /
predictive Pi0-FAST models.

Shallow embedding of the pure computational core of
`src/openpi/models/pi0_fast_obs_distilled.py`,
`src/openpi/models/pi0_fast_predictive.py`, and
`src/openpi/policies/libero_obs_distillation_policy.py`.

Modelling conventions:
* machine floats are idealised as rationals; the transcendental functions
  `exp` and `log` used by `softmax` / `log_softmax` are passed in as
  abstract parameters, since the claims under study are structural and do
  not depend on their analytic properties;
* the transformer backbone and vision encoder are external collaborators
  (per the spec they are interface-only); they appear as abstract
  functions bundled in small environment structures;
* jax arrays with a leading batch dimension are embedded per example
  where every source operation acts pointwise on the batch dimension
  (concatenation along the sequence axis, per-row reductions, `vmap`-ed
  utilities); the decode loop, whose termination flag couples the batch,
  keeps an explicit batch index `Fin b`.
-/

/-- Fuel-bounded functional semantics of `jax.lax.while_loop`: repeat `f`
while `cnd` holds, for at most `fuel` iterations.  Every loop in the source
strictly increases a step counter bounded by the fuel we pass, so this
coincides with the unbounded loop. -/
def whileLoop {σ : Type} (cnd : σ → Bool) (f : σ → σ) : ℕ → σ → σ
  | 0, s => s
  | n + 1, s => if cnd s then whileLoop cnd f n (f s) else s

/-- Circular left shift by `s` of a `Fin n`-indexed vector; the meaning of
`jnp.roll(x, -s, axis=0)`. -/
def rollLeft {n : ℕ} {α : Type} (s : ℕ) (y : Fin n → α) : Fin n → α :=
  fun i => y ⟨(i.val + s) % n, Nat.mod_lt _ (Nat.lt_of_le_of_lt (Nat.zero_le _) i.isLt)⟩

/-- Circular left shift by `s` of both axes of a square matrix; the meaning
of `jnp.roll(m, -s, axis=(0, 1))`. -/
def rollLeft2 {n : ℕ} {α : Type} (s : ℕ) (m : Fin n → Fin n → α) : Fin n → Fin n → α :=
  fun i j =>
    m ⟨(i.val + s) % n, Nat.mod_lt _ (Nat.lt_of_le_of_lt (Nat.zero_le _) i.isLt)⟩
      ⟨(j.val + s) % n, Nat.mod_lt _ (Nat.lt_of_le_of_lt (Nat.zero_le _) j.isLt)⟩

/-- Circular right shift by `s` (inverse of `rollLeft s`); the meaning of
`jnp.roll(x, s, axis=0)`. -/
def rollRight {n : ℕ} {α : Type} (s : ℕ) (y : Fin n → α) : Fin n → α :=
  fun i => y ⟨(i.val + (n - s % n)) % n, Nat.mod_lt _ (Nat.lt_of_le_of_lt (Nat.zero_le _) i.isLt)⟩

/-- Circular right shift by `s` of both axes of a square matrix. -/
def rollRight2 {n : ℕ} {α : Type} (s : ℕ) (m : Fin n → Fin n → α) : Fin n → Fin n → α :=
  fun i j =>
    m ⟨(i.val + (n - s % n)) % n, Nat.mod_lt _ (Nat.lt_of_le_of_lt (Nat.zero_le _) i.isLt)⟩
      ⟨(j.val + (n - s % n)) % n, Nat.mod_lt _ (Nat.lt_of_le_of_lt (Nat.zero_le _) j.isLt)⟩

/-- Index of the first maximal entry of a vector of logits, as a natural
number; the meaning of `jnp.argmax(x, axis=-1)` on one row
(`List.argmax` keeps the first element on ties, as `jnp.argmax` does). -/
def argmaxVec {v : ℕ} (x : Fin v → ℚ) : ℕ :=
  (((List.finRange v).argmax x).map Fin.val).getD 0

/-- Embedding of `put_along_last_axis(arr, indices, values)` from
`pi0_fast_obs_distilled.py` / `pi0_fast_predictive.py` (identical in both),
specialised to integer tokens: a one-hot scatter along the last axis.
Entries of `indices` that fall outside `[0, m)` produce an all-zero one-hot
row (the `jax.nn.one_hot` convention) and hence leave `arr` unchanged. -/
def putAlongLastAxis {b m k : ℕ} (arr : Fin b → Fin m → ℕ)
    (indices : Fin b → Fin k → ℕ) (values : Fin b → Fin k → ℕ) : Fin b → Fin m → ℕ :=
  fun ex n =>
    let oneHot : Fin k → ℕ := fun i => if indices ex i = n.val then 1 else 0
    let putMask : ℕ := ∑ i, 1 * oneHot i
    let putVals : ℕ := ∑ i, values ex i * oneHot i
    if putMask ≠ 0 then putVals else arr ex n

/-- Running inclusive cumulative sum with accumulator `acc`; the meaning of
`jnp.cumsum` on one row when started from `acc = 0`. -/
def cumsumFrom (acc : ℤ) : List ℤ → List ℤ
  | [] => []
  | x :: xs => (acc + x) :: cumsumFrom (acc + x) xs

/-- Embedding of `make_attn_mask(input_mask, mask_ar)` (identical in both
model files), per example.  `maskAr` is the autoregressive-flag row after
the source's `broadcast_to`, so it has the same length as `inputMask`.
Entry `[i][j]` is `(cumsum[j] <= cumsum[i]) && valid[i] && valid[j]`. -/
def makeAttnMask (inputMask : List Bool) (maskAr : List ℤ) : List (List Bool) :=
  let c := cumsumFrom 0 maskAr
  (List.range inputMask.length).map (fun i =>
    (List.range inputMask.length).map (fun j =>
      decide (c.getD j 0 ≤ c.getD i 0) && inputMask.getD i false && inputMask.getD j false))

/-- Embedding of `left_to_right_align(x, input_mask, attn_mask)` for one
example (the source `vmap`s this function over the batch).  The shift
amount is `jnp.max(input_mask * jnp.arange(n)) + 1`, i.e. one past the
index of the last valid position (and `1` when no position is valid). -/
def leftToRightAlign {n : ℕ} {Emb : Type} (x : Fin n → Emb) (inputMask : Fin n → Bool)
    (attnMask : Fin n → Fin n → Bool) :
    (Fin n → Emb) × (Fin n → Bool) × (Fin n → Fin n → Bool) :=
  let seqlen : ℕ := (Finset.univ.sup (fun i : Fin n => if inputMask i then i.val else 0)) + 1
  (rollLeft seqlen x, rollLeft seqlen inputMask, rollLeft2 seqlen attnMask)

/-- Decode-time environment of `sample_actions`: the static data and the
external backbone calls that the decode loop closes over.  `llmStep` is the
incremental `PaliGemma.llm(embedded_prefix=…, mask=…, positions=…,
decode=True, kv_cache=…)` call (composed with the final logit read-out),
`llmEmbedTok` is `PaliGemma.llm(token, embed_only=True)`, and `sampleTok`
is `jax.random.categorical` applied to the tempered logits. -/
structure DecodeEnv (b v : ℕ) (EmbTok Cache : Type) where
  maxDecodingSteps : ℕ
  prefillSize : ℕ
  prefillLen : Fin b → ℕ
  temperature : ℚ
  sampleTok : ℕ → (Fin b → Fin v → ℚ) → Fin b → ℕ
  llmEmbedTok : (Fin b → ℕ) → EmbTok
  llmStep : EmbTok → (Fin b → Fin (prefillSize + maxDecodingSteps) → Bool) →
    (Fin b → ℕ) → Cache → ((Fin b → Fin v → ℚ) × Cache)

/-- Loop-carried state of the decode loop of `sample_actions`:
`(rng, last_logit, output_tokens, cache, all_eos, step)`.  The pseudorandom
key is modelled as a counter (`jax.random.split` becomes an increment). -/
structure DecodeCarry (b v : ℕ) (Cache : Type) (m : ℕ) where
  rng : ℕ
  lastLogit : Fin b → Fin v → ℚ
  outputTokens : Fin b → Fin m → ℕ
  cache : Cache
  allEos : Bool
  step : ℕ

/-- The end-of-sequence token id `PALIGEMMA_EOS_TOKEN = 1`. -/
def paligemmaEosToken : ℕ := 1

/-- The token selection `jax.lax.cond(temperature > 0.0, categorical,
argmax)` of the decode step: sample from the tempered logits when the
temperature is positive, otherwise take the per-example argmax. -/
def selectToken {b v : ℕ} (temperature : ℚ) (sampleTok : ℕ → (Fin b → Fin v → ℚ) → Fin b → ℕ)
    (rngStep : ℕ) (lastLogit : Fin b → Fin v → ℚ) : Fin b → ℕ :=
  if 0 < temperature then sampleTok rngStep (fun ex i => lastLogit ex i / temperature)
  else fun ex => argmaxVec (lastLogit ex)

/-- Embedding of the `step` body of the decode loop of `sample_actions`
(identical in both model files): sample or greedily pick a token from the
last logits, scatter it into the output buffer at column `step`, check
whether every example's current token is the end-of-sequence token, then
run one incremental forward step against the cache under the window mask
`prefix_start <= n < prefill_size + step + 1`. -/
def decodeStep {b v : ℕ} {E C : Type} (env : DecodeEnv b v E C)
    (c : DecodeCarry b v C env.maxDecodingSteps) : DecodeCarry b v C env.maxDecodingSteps :=
  let rngNew := c.rng + 1
  let rngStep := c.rng
  let token : Fin b → ℕ := selectToken env.temperature env.sampleTok rngStep c.lastLogit
  let outputNew := putAlongLastAxis c.outputTokens
    (fun (_ : Fin b) (_ : Fin 1) => c.step) (fun (ex : Fin b) (_ : Fin 1) => token ex)
  let hasEos : Fin b → Bool := fun ex => decide (token ex = paligemmaEosToken)
  let allEos : Bool := decide (∀ ex, hasEos ex = true)
  let emb := env.llmEmbedTok token
  let positions : Fin b → ℕ := fun ex => env.prefillLen ex + c.step + 1
  let mask : Fin b → Fin (env.prefillSize + env.maxDecodingSteps) → Bool :=
    fun ex n =>
      decide (env.prefillSize - env.prefillLen ex ≤ n.val) &&
        decide (n.val < env.prefillSize + c.step + 1)
  let fwd := env.llmStep emb mask positions c.cache
  ⟨rngNew, fwd.1, outputNew, fwd.2, allEos, c.step + 1⟩

/-- Embedding of the `cond` of the decode loop:
`(~all_eos) & (step < max_decoding_steps)`. -/
def decodeCond {b v : ℕ} {E C : Type} (env : DecodeEnv b v E C)
    (c : DecodeCarry b v C env.maxDecodingSteps) : Bool :=
  !c.allEos && decide (c.step < env.maxDecodingSteps)

/-- Embedding of the `jax.lax.while_loop(cond, step, …)` tail of
`sample_actions`, starting from the last prefill logit, a zero-initialised
output buffer, `all_eos = False` and `step = 0`.  The fuel
`maxDecodingSteps` is exact: `cond` forces `step < maxDecodingSteps` and
each iteration increments `step` by one. -/
def sampleActionsDecodeLoop {b v : ℕ} {E C : Type} (env : DecodeEnv b v E C) (rng0 : ℕ)
    (lastPrefillLogit : Fin b → Fin v → ℚ) (cache0 : C) :
    DecodeCarry b v C env.maxDecodingSteps :=
  whileLoop (decodeCond env) (decodeStep env) env.maxDecodingSteps
    ⟨rng0, lastPrefillLogit, fun _ _ => 0, cache0, false, 0⟩

/-- The stabiliser `1e-8` added inside the logarithms of the KL term. -/
def eps8 : ℚ := 1 / 100000000

/-- One row of `jax.nn.softmax`: `exp x_i / sum_j exp x_j`, with the
machine exponential abstracted as `expf`. -/
def softmaxRow (expf : ℚ → ℚ) (row : List ℚ) : List ℚ :=
  row.map (fun x => expf x / (row.map expf).sum)

/-- One row of `jax.nn.log_softmax`: `x_i - log (sum_j exp x_j)`, with the
machine exponential and logarithm abstracted as `expf` and `logf`. -/
def logSoftmaxRow (expf logf : ℚ → ℚ) (row : List ℚ) : List ℚ :=
  row.map (fun x => x - logf ((row.map expf).sum))

/-- One row of `jax.nn.one_hot(idx, vocab)` over the rationals. -/
def oneHotQ (vocab : ℕ) (idx : ℕ) : List ℚ :=
  (List.range vocab).map (fun j => if j = idx then 1 else 0)

/-- Shared mask-and-normalise reduction of both loss terms:
`sum(vals * mask) / clip(sum(mask), 1)` for one example
(`jnp.clip(s, 1)` is `max s 1`). -/
def maskNormalize (vals : List ℚ) (mask : List Bool) : ℚ :=
  ((vals.zip mask).map (fun q => if q.2 then q.1 else 0)).sum /
    max ((mask.map (fun bb => if bb then (1 : ℚ) else 0)).sum) 1

/-- Configuration fields of `Pi0FASTObsDistilledConfig` that the embedded
computations consult. -/
structure DistilledConfig where
  klWeight : ℚ
  teacherTemperature : ℚ
  useTeacherModel : Bool
  teacherCheckpoint : Option String
  usePrevActionInput : Bool
  actionDim : ℕ
  actionHorizon : ℕ
  maxTokenLen : ℕ

/-- Configuration fields of `Pi0FASTPredictiveConfig` that the embedded
computations consult. -/
structure PredictiveConfig where
  useCurrentActionInput : Bool
  actionDim : ℕ
  actionHorizon : ℕ
  maxTokenLen : ℕ

/-- Embedding of `Pi0FASTObsDistilled.compute_loss` for one example, after
the two backbone forward passes: the student and teacher logit matrices
(positions × vocabulary) enter as data, since the backbone is an external
collaborator.  Translates lines 400-447 of `pi0_fast_obs_distilled.py`:
one-hot cross entropy of the student against `tokenized_prompt[1:]`,
masked by `token_loss_mask[1:]` and normalised by the clipped mask count;
then, when `use_teacher_model` is set, the temperature-softened KL
divergence `sum_v teacher_p * (log(teacher_p + 1e-8) - log(student_p + 1e-8))`
masked and normalised the same way, combined as `ce + kl_weight * kl`. -/
def computeLossDistilled (cfg : DistilledConfig) (expf logf : ℚ → ℚ) (vocab : ℕ)
    (studentLogits teacherLogits : List (List ℚ))
    (tokenizedPrompt : List ℕ) (tokenLossMask : List Bool) : ℚ :=
  let targetToks := tokenizedPrompt.drop 1
  let lossMask := tokenLossMask.drop 1
  let ceAll := (targetToks.zip studentLogits).map (fun p =>
    -((((oneHotQ vocab p.1).zip (logSoftmaxRow expf logf p.2)).map (fun q => q.1 * q.2)).sum))
  let ceLoss := ((ceAll.zip lossMask).map (fun q => if q.2 then q.1 else 0)).sum /
    max ((lossMask.map (fun bb => if bb then (1 : ℚ) else 0)).sum) 1
  if cfg.useTeacherModel then
    let klAll := (studentLogits.zip teacherLogits).map (fun p =>
      let sp := softmaxRow expf (p.1.map (fun z => z / cfg.teacherTemperature))
      let tp := softmaxRow expf (p.2.map (fun z => z / cfg.teacherTemperature))
      ((tp.zip sp).map (fun q => q.1 * (logf (q.1 + eps8) - logf (q.2 + eps8)))).sum)
    let klLoss := ((klAll.zip lossMask).map (fun q => if q.2 then q.1 else 0)).sum /
      max ((lossMask.map (fun bb => if bb then (1 : ℚ) else 0)).sum) 1
    ceLoss + cfg.klWeight * klLoss
  else ceLoss

/-- Embedding of `Pi0FASTPredictive.compute_loss` for one example, after
the backbone forward pass (lines 259-282 of `pi0_fast_predictive.py`):
`token_pplx = sum(targets * logp)` per position, then
`-sum(token_pplx * loss_mask) / clip(sum(loss_mask), 1)` — note the final
sum runs over the token-position axis, so the result is one scalar. -/
def computeLossPredictive (expf logf : ℚ → ℚ) (vocab : ℕ) (logits : List (List ℚ))
    (tokenizedPrompt : List ℕ) (tokenLossMask : List Bool) : ℚ :=
  let targetToks := tokenizedPrompt.drop 1
  let lossMask := tokenLossMask.drop 1
  let tokenPplx := (targetToks.zip logits).map (fun p =>
    (((oneHotQ vocab p.1).zip (logSoftmaxRow expf logf p.2)).map (fun q => q.1 * q.2)).sum)
  let negSum := -(((tokenPplx.zip lossMask).map (fun q => if q.2 then q.1 else 0)).sum)
  negSum / max ((lossMask.map (fun bb => if bb then (1 : ℚ) else 0)).sum) 1

/-- Batched `Pi0FASTPredictive.compute_loss`: one entry per example of the
batch, each the per-example value (the source reduces each example's loss
over its token-position axis). -/
def computeLossPredictiveBatch (cfg : PredictiveConfig) (expf logf : ℚ → ℚ) (vocab : ℕ)
    (batch : List (List (List ℚ) × List ℕ × List Bool)) : List ℚ :=
  let _ := cfg.actionHorizon
  batch.map (fun p => computeLossPredictive expf logf vocab p.1 p.2.1 p.2.2)

/-- Batched `Pi0FASTObsDistilled.compute_loss`: one entry per example. -/
def computeLossDistilledBatch (cfg : DistilledConfig) (expf logf : ℚ → ℚ) (vocab : ℕ)
    (batch : List ((List (List ℚ)) × (List (List ℚ)) × List ℕ × List Bool)) : List ℚ :=
  batch.map (fun p => computeLossDistilled cfg expf logf vocab p.1 p.2.1 p.2.2.1 p.2.2.2)

/-- Spec-side formula: the masked, normalised one-hot cross-entropy of the
student logits against the shifted prompt targets. -/
def specCrossEntropy (expf logf : ℚ → ℚ) (vocab : ℕ) (studentLogits : List (List ℚ))
    (tokenizedPrompt : List ℕ) (tokenLossMask : List Bool) : ℚ :=
  maskNormalize
    (((tokenizedPrompt.drop 1).zip studentLogits).map (fun p =>
      -((((oneHotQ vocab p.1).zip (logSoftmaxRow expf logf p.2)).map (fun q => q.1 * q.2)).sum)))
    (tokenLossMask.drop 1)

/-- Spec-side formula for the per-position KL divergence: probabilities are
the softmax of the logits divided by the temperature, and the divergence is
`sum over vocabulary of teacher_p * (log(teacher_p + 1e-8) - log(student_p + 1e-8))`. -/
def specKLDivPos (expf logf : ℚ → ℚ) (temp : ℚ) (studentRow teacherRow : List ℚ) : ℚ :=
  let sp := softmaxRow expf (studentRow.map (fun z => z / temp))
  let tp := softmaxRow expf (teacherRow.map (fun z => z / temp))
  ((tp.zip sp).map (fun q => q.1 * (logf (q.1 + eps8) - logf (q.2 + eps8)))).sum

/-- Spec-side formula: the per-position KL divergences masked and
normalised identically to the cross-entropy term. -/
def specKLLoss (expf logf : ℚ → ℚ) (temp : ℚ) (studentLogits teacherLogits : List (List ℚ))
    (tokenLossMask : List Bool) : ℚ :=
  maskNormalize
    ((studentLogits.zip teacherLogits).map (fun p => specKLDivPos expf logf temp p.1 p.2))
    (tokenLossMask.drop 1)

/-- Per-example observation structure consumed by the embedders: the
camera images with their validity flags, in stable declaration order, and
the tokenized prompt with its masks (`_model.Observation` restricted to
the fields these models read). -/
structure ObsEx (Img : Type) where
  images : List (Img × Bool)
  tokenizedPrompt : List ℕ
  tokenizedPromptMask : List Bool
  tokenArMask : List ℤ
  tokenLossMask : List Bool

/-- The image part of the embedders' loop `for name in obs.images`: for
each camera, the vision-encoder token embeddings, the camera validity flag
broadcast across that token span, and an autoregressive flag of 0. -/
def imgSegment {Img Emb : Type} (vit : Img → List Emb) :
    List (Img × Bool) → List Emb × List Bool × List ℤ
  | [] => ([], [], [])
  | (im, mk) :: rest =>
    let t := vit im
    let r := imgSegment vit rest
    (t ++ r.1, List.replicate t.length mk ++ r.2.1, List.replicate t.length (0 : ℤ) ++ r.2.2)

/-- Embedding of `Pi0FASTObsDistilled.embed_inputs` (the no-action
self-distillation teacher path): image segments followed by the embedded
prompt tokens with the caller-supplied prompt mask and autoregressive
mask. -/
def embedInputs {Img Emb : Type} (vit : Img → List Emb) (llmEmbed : ℕ → Emb)
    (obs : ObsEx Img) : List Emb × List Bool × List ℤ :=
  let r := imgSegment vit obs.images
  (r.1 ++ obs.tokenizedPrompt.map llmEmbed,
   r.2.1 ++ obs.tokenizedPromptMask,
   r.2.2 ++ obs.tokenArMask)

/-- Embedding of `Pi0FASTObsDistilled.embed_inputs_with_prev_action`:
image segments, then — when a previous action horizon is supplied and the
configuration enables it — each action vector projected through the shared
linear layer `actionProj`, appended with all-true validity and
autoregressive flag 0, then the embedded prompt tokens. -/
def embedInputsWithPrevAction {Img Emb : Type} (vit : Img → List Emb) (llmEmbed : ℕ → Emb)
    (actionProj : List ℚ → Emb) (usePrevActionInput : Bool) (obs : ObsEx Img)
    (prevActions : Option (List (List ℚ))) : List Emb × List Bool × List ℤ :=
  let r := imgSegment vit obs.images
  let acts : List Emb × List Bool × List ℤ :=
    match prevActions, usePrevActionInput with
    | some a, true =>
      (a.map actionProj, List.replicate a.length true, List.replicate a.length (0 : ℤ))
    | _, _ => ([], [], [])
  (r.1 ++ acts.1 ++ obs.tokenizedPrompt.map llmEmbed,
   r.2.1 ++ acts.2.1 ++ obs.tokenizedPromptMask,
   r.2.2 ++ acts.2.2 ++ obs.tokenArMask)

/-- Embedding of `Pi0FASTPredictive.embed_inputs_with_current_action`:
textually the same mechanism as the previous-action embedder, with the
current-action projection layer in place of the previous-action one. -/
def embedInputsWithCurrentAction {Img Emb : Type} (vit : Img → List Emb) (llmEmbed : ℕ → Emb)
    (actionProj : List ℚ → Emb) (useCurrentActionInput : Bool) (obs : ObsEx Img)
    (currentActions : Option (List (List ℚ))) : List Emb × List Bool × List ℤ :=
  let r := imgSegment vit obs.images
  let acts : List Emb × List Bool × List ℤ :=
    match currentActions, useCurrentActionInput with
    | some a, true =>
      (a.map actionProj, List.replicate a.length true, List.replicate a.length (0 : ℤ))
    | _, _ => ([], [], [])
  (r.1 ++ acts.1 ++ obs.tokenizedPrompt.map llmEmbed,
   r.2.1 ++ acts.2.1 ++ obs.tokenizedPromptMask,
   r.2.2 ++ acts.2.2 ++ obs.tokenArMask)

/-- The student model's backbone interface used by
`compute_teacher_logits`: the vision encoder, the token embedder, the
parallel forward pass returning pre-logits, and the logit read-out. -/
structure BackboneEnv (Img Emb Pre : Type) where
  vit : Img → List Emb
  llmEmbed : ℕ → Emb
  llmFwdPre : List Emb → List (List Bool) → List Pre
  llmDecode : List Pre → List (List ℚ)

/-- A separate teacher model instance (a `Pi0FAST`, created only when a
checkpoint path is configured).  Its `embed_inputs` lives in
`openpi/models/pi0_fast.py`, outside the four source files, so it is kept
abstract together with its own backbone. -/
structure TeacherEnv (Img Emb Pre : Type) where
  embedInp : ObsEx Img → List Emb × List Bool × List ℤ
  llmFwdPre : List Emb → List (List Bool) → List Pre
  llmDecode : List Pre → List (List ℚ)

/-- Python truthiness of the `teacher_checkpoint` field as used in
`if config.use_teacher_model and config.teacher_checkpoint:` — an absent
value and the empty string are both falsy. -/
def pyTruthy : Option String → Bool
  | none => false
  | some s => decide (s ≠ "")

/-- Embedding of the teacher setup in `Pi0FASTObsDistilled.__init__`
(lines 172-190): a separate teacher model is created only when
`use_teacher_model` is set and a checkpoint path is truthy; in every other
case `teacher_model` stays `None` (the checkpoint itself is never loaded —
that path is a logged TODO). -/
def initTeacherModel {Img Emb Pre : Type} (cfg : DistilledConfig)
    (mkTeacher : Unit → TeacherEnv Img Emb Pre) : Option (TeacherEnv Img Emb Pre) :=
  if cfg.useTeacherModel && pyTruthy cfg.teacherCheckpoint then some (mkTeacher ()) else none

/-- The last `n` entries of a list: `l[-n:]`. -/
def takeLastN {α : Type} (n : ℕ) (l : List α) : List α := l.drop (l.length - n)

/-- Drop the last row and the last column of a matrix: `m[:-1, :-1]`. -/
def truncAttn (m : List (List Bool)) : List (List Bool) := m.dropLast.map List.dropLast

/-- Embedding of `Pi0FASTObsDistilled.compute_teacher_logits` for one
example: when no separate teacher exists, embed the current observation
through the student's own no-action path and run the student backbone;
otherwise use the separate teacher's embedding and backbone.  Both paths
build the attention mask, run the forward pass on `embeddings[:-1]` with
mask `[:-1, :-1]`, and decode the last `len(prompt) - 1` pre-logits. -/
def computeTeacherLogits {Img Emb Pre : Type} (B : BackboneEnv Img Emb Pre)
    (teacher : Option (TeacherEnv Img Emb Pre)) (obs : ObsEx Img) : List (List ℚ) :=
  let e :=
    match teacher with
    | none => embedInputs B.vit B.llmEmbed obs
    | some t => t.embedInp obs
  let am := makeAttnMask e.2.1 e.2.2
  let tgt := obs.tokenizedPrompt.length - 1
  match teacher with
  | none => B.llmDecode (takeLastN tgt (B.llmFwdPre e.1.dropLast (truncAttn am)))
  | some t => t.llmDecode (takeLastN tgt (t.llmFwdPre e.1.dropLast (truncAttn am)))

/-- Spec-side definition of self-distillation: run the student model's own
no-action-conditioning embedding path (`embed_inputs`) on the observation
and feed it through the student's backbone. -/
def selfDistillLogits {Img Emb Pre : Type} (B : BackboneEnv Img Emb Pre)
    (obs : ObsEx Img) : List (List ℚ) :=
  let e := embedInputs B.vit B.llmEmbed obs
  B.llmDecode (takeLastN (obs.tokenizedPrompt.length - 1)
    (B.llmFwdPre e.1.dropLast (truncAttn (makeAttnMask e.2.1 e.2.2))))

/-- Python values flowing through the observation-distillation data
record: integers, booleans, strings, numpy arrays (shape plus flat data),
nested dicts and lists. -/
inductive PyVal where
  | int (n : ℤ)
  | bool (b : Bool)
  | str (s : String)
  | arr (shape : List ℕ) (data : List ℚ)
  | dict (entries : List (String × PyVal))
  | list (items : List PyVal)

/-- A Python data record: an ordered association list of string keys. -/
def PyDict : Type := List (String × PyVal)

/-- Python dict assignment `d[k] = v`: replace the binding in place when
the key exists, otherwise append it. -/
def setKey (k : String) (v : PyVal) : PyDict → PyDict
  | [] => [(k, v)]
  | (k0, v0) :: rest => if k0 = k then (k, v) :: rest else (k0, v0) :: setKey k v rest

/-- Whether a value is a numpy array (`isinstance(v, np.ndarray)`). -/
def isNdarray : PyVal → Bool
  | .arr _ _ => true
  | _ => false

/-- The value of `np.zeros_like(v)` on an array: the same shape, all
entries zero. -/
def zerosLike : PyVal → PyVal
  | .arr sh d => .arr sh (d.map (fun _ => 0))
  | v => v

/-- The integer read by `data.get("timestep", 0)` (non-integer values of
the key, which would fault the Python comparison, behave as the default;
every branch of the transform adds the same keys either way). -/
def getTimestep (data : PyDict) : ℤ :=
  match List.lookup "timestep" data with
  | some (.int n) => n
  | _ => 0

/-- Python list indexing `v[i]` with an in-range non-negative index, as
used on `trajectory["observations"][timestep - 1]`. -/
def pyListGet (v : PyVal) (i : ℤ) : PyVal :=
  match v with
  | .list items =>
    if h : 0 ≤ i ∧ i.toNat < items.length then items.get ⟨i.toNat, h.2⟩ else .int 0
  | _ => .int 0

/-- Python dict read `v[k]` on a nested dict value. -/
def pyDictGet (v : PyVal) (k : String) : PyVal :=
  match v with
  | .dict entries => (List.lookup k entries).getD (.int 0)
  | _ => .int 0

/-- The `prev_actions` zero value of the non-trajectory branches: an array
of zeros shaped like `data["actions"]` when that key holds a rank-2 array,
else `np.zeros(action_dim)`. -/
def prevActionsZeroVal (actionDim : ℕ) (data : PyDict) : PyVal :=
  match List.lookup "actions" data with
  | some (.arr sh d) =>
    if sh.length = 2 then .arr sh (d.map (fun _ => 0))
    else .arr [actionDim] (List.replicate actionDim 0)
  | _ => .arr [actionDim] (List.replicate actionDim 0)

/-- Configuration of `ObservationDistillationTransform`. -/
structure ObsDistillCfg where
  actionDim : ℕ
  handleFirstTimestep : String

/-- Embedding of `ObservationDistillationTransform.__call__` from
`libero_obs_distillation_policy.py` (lines 40-96): starting from a copy of
the record, either pull the previous observation/action out of the
trajectory data, or fall back to the configured first-timestep handling
(`duplicate` / `zero` / `skip`), which only ever assigns the keys
`prev_observation`, `prev_actions`, and `skip_sample`. -/
def obsDistillCall (cfg : ObsDistillCfg) (data : PyDict) : PyDict :=
  let result := data
  if (List.lookup "trajectory_data" data).isSome && decide (0 < getTimestep data) then
    let traj := (List.lookup "trajectory_data" data).getD (.int 0)
    let ts := getTimestep data
    let r1 := setKey "prev_observation" (pyListGet (pyDictGet traj "observations") (ts - 1)) result
    setKey "prev_actions" (pyListGet (pyDictGet traj "actions") (ts - 1)) r1
  else if cfg.handleFirstTimestep = "duplicate" then
    let r1 := setKey "prev_observation" ((List.lookup "observation" data).getD (.dict data)) result
    setKey "prev_actions" (prevActionsZeroVal cfg.actionDim data) r1
  else if cfg.handleFirstTimestep = "zero" then
    let r1 := setKey "prev_observation"
      (.dict (data.map (fun p => (p.1, if isNdarray p.2 then zerosLike p.2 else p.2)))) result
    setKey "prev_actions" (prevActionsZeroVal cfg.actionDim data) r1
  else if cfg.handleFirstTimestep = "skip" then
    setKey "skip_sample" (.bool true) result
  else result

/-- Concrete decode environment used to evaluate the termination-flag
computation: batch 2, vocabulary 2, two decoding steps, greedy selection;
the backbone (threading its cache as a step counter) yields end-of-sequence
for example 0 at step 0 and for example 1 at step 1. -/
def envFlag : DecodeEnv 2 2 Unit ℕ where
  maxDecodingSteps := 2
  prefillSize := 3
  prefillLen := fun _ => 3
  temperature := 0
  sampleTok := fun _ _ _ => 0
  llmEmbedTok := fun _ => ()
  llmStep := fun _ _ _ cache =>
    (fun ex i => if ex.val = 1 ∧ i.val = 1 then 1 else 0, cache + 1)

/-- Prefill logits for `envFlag`: example 0's greedy token is 1 (the
end-of-sequence id), example 1's is 0. -/
def prefillLogitFlag : Fin 2 → Fin 2 → ℚ :=
  fun ex i => if ex.val = 0 ∧ i.val = 1 then 1 else 0

theorem rangeMapGetD {α : Type} (n i : ℕ) (f : ℕ → α) (d : α) (h : i < n) :
    ((List.range n).map f).getD i d = f i := by
  simp [List.getD, List.getElem?_map, List.getElem?_range, h]

theorem cumsumFrom_length (a : ℤ) (l : List ℤ) : (cumsumFrom a l).length = l.length := by
  induction l generalizing a with
  | nil => rfl
  | cons x xs ih => simp [cumsumFrom, ih]

theorem cumsumFrom_getD (a : ℤ) (l : List ℤ) (i : ℕ) (h : i < l.length) :
    (cumsumFrom a l).getD i 0 = a + (l.take (i + 1)).sum := by
  induction l generalizing a i with
  | nil => simp at h
  | cons x xs ih =>
    cases i with
    | zero => simp [cumsumFrom]
    | succ n =>
      have hx : n < xs.length := by simpa using h
      rw [show cumsumFrom a (x :: xs) = (a + x) :: cumsumFrom (a + x) xs from rfl,
        List.getD_cons_succ, ih (a + x) n hx]
      simp [add_assoc]

theorem makeAttnMask_entry (im : List Bool) (ar : List ℤ) (i j : ℕ)
    (hi : i < im.length) (hj : j < im.length) :
    ((makeAttnMask im ar).getD i []).getD j false =
      (decide ((cumsumFrom 0 ar).getD j 0 ≤ (cumsumFrom 0 ar).getD i 0)
        && im.getD i false && im.getD j false) := by
  simp only [makeAttnMask]
  rw [rangeMapGetD _ _ _ _ hi, rangeMapGetD _ _ _ _ hj]

theorem take_sum_lt_of_flag (l : List ℤ) (hflag : ∀ x ∈ l, x = 0 ∨ x = 1)
    (i j : ℕ) (hij : i < j) (hj : j < l.length) (hone : l.getD j 0 = 1) :
    (l.take (i + 1)).sum < (l.take (j + 1)).sum := by
  have hsplit : l.take (j + 1) = l.take (i + 1) ++ (l.drop (i + 1)).take (j - i) := by
    rw [← List.take_add]
    congr 1
    omega
  rw [hsplit, List.sum_append]
  have hlen : j - i - 1 < ((l.drop (i + 1)).take (j - i)).length := by
    rw [List.length_take, List.length_drop]
    omega
  have hget : ((l.drop (i + 1)).take (j - i)).get ⟨j - i - 1, hlen⟩ = l.get ⟨j, hj⟩ := by
    simp only [List.get_eq_getElem, List.getElem_take, List.getElem_drop]
    congr 1
    omega
  have hmem : (1 : ℤ) ∈ (l.drop (i + 1)).take (j - i) := by
    have hone2 : l.get ⟨j, hj⟩ = 1 := by
      have := List.getD_eq_getElem l 0 hj
      simp only [List.get_eq_getElem]
      omega
    rw [← hone2, ← hget]
    exact List.get_mem _ _ _
  have hsub : ∀ x ∈ (l.drop (i + 1)).take (j - i), (0 : ℤ) ≤ x := by
    intro x hx
    have hxl : x ∈ l := (List.Sublist.subset ((List.take_sublist _ _).trans (List.drop_sublist _ _))) hx
    rcases hflag x hxl with h0 | h1 <;> omega
  have hone_le : (1 : ℤ) ≤ ((l.drop (i + 1)).take (j - i)).sum :=
    List.single_le_sum hsub 1 hmem
  omega

/-- C4: for every validity mask and (broadcast) autoregressive-flag mask,
the attention-mask entry `[i][j]` equals
`(cumsum(ar)[j] <= cumsum(ar)[i]) && valid[i] && valid[j]`; consequently
the diagonal equals the validity flag, the mask is symmetric between
positions with equal cumulative flag (a non-causal group), and — for 0/1
flags — no position attends to a strictly later causal position. -/
theorem attn_mask_entries_c4 (im : List Bool) (ar : List ℤ) (har : ar.length = im.length) :
    (∀ i j, i < im.length → j < im.length →
      ((makeAttnMask im ar).getD i []).getD j false =
        (decide ((cumsumFrom 0 ar).getD j 0 ≤ (cumsumFrom 0 ar).getD i 0)
          && im.getD i false && im.getD j false))
    ∧ (∀ i, i < im.length →
      ((makeAttnMask im ar).getD i []).getD i false = im.getD i false)
    ∧ (∀ i j, i < im.length → j < im.length →
      (cumsumFrom 0 ar).getD i 0 = (cumsumFrom 0 ar).getD j 0 →
      ((makeAttnMask im ar).getD i []).getD j false =
        ((makeAttnMask im ar).getD j []).getD i false)
    ∧ ((∀ x ∈ ar, x = 0 ∨ x = 1) → ∀ i j, i < j → j < im.length → ar.getD j 0 = 1 →
      ((makeAttnMask im ar).getD i []).getD j false = false) := by
  refine ⟨fun i j hi hj => makeAttnMask_entry im ar i j hi hj, ?_, ?_, ?_⟩
  · intro i hi
    rw [makeAttnMask_entry im ar i i hi hi]
    simp
  · intro i j hi hj hc
    rw [makeAttnMask_entry im ar i j hi hj, makeAttnMask_entry im ar j i hj hi, hc]
    cases im.getD i false <;> cases im.getD j false <;> simp
  · intro hflag i j hij hj hone
    have hi : i < im.length := lt_trans hij hj
    rw [makeAttnMask_entry im ar i j hi hj]
    have hjar : j < ar.length := by omega
    have hiar : i < ar.length := by omega
    have hlt : (cumsumFrom 0 ar).getD i 0 < (cumsumFrom 0 ar).getD j 0 := by
      rw [cumsumFrom_getD 0 ar i hiar, cumsumFrom_getD 0 ar j hjar]
      have := take_sum_lt_of_flag ar hflag i j hij hjar hone
      omega
    have hdec : ¬ ((cumsumFrom 0 ar).getD j 0 ≤ (cumsumFrom 0 ar).getD i 0) := not_le.mpr hlt
    rw [decide_eq_false hdec]
    simp

/-- Witness for C4 at a concrete input: three positions, flags `[0, 1, 1]`,
validity `[true, false, true]`; the diagonal entry at position 2 equals the
validity flag there. -/
theorem attn_mask_c4_witness :
    (([(0 : ℤ), 1, 1] : List ℤ).length = ([true, false, true] : List Bool).length)
    ∧ ((makeAttnMask [true, false, true] [0, 1, 1]).getD 2 []).getD 2 false =
      ([true, false, true] : List Bool).getD 2 false :=
  ⟨by decide, (attn_mask_entries_c4 [true, false, true] [0, 1, 1] (by decide)).2.1 2 (by decide)⟩

theorem rollRight_rollLeft {n : ℕ} {α : Type} (s : ℕ) (hs : s ≤ n) (y : Fin n → α) :
    rollRight s (rollLeft s y) = y := by
  funext i
  simp only [rollRight, rollLeft]
  congr 1
  apply Fin.ext
  simp only []
  rw [Nat.mod_add_mod]
  rcases Nat.lt_or_ge s n with h | h
  · rw [Nat.mod_eq_of_lt h, show i.val + (n - s) + s = i.val + n by omega,
      Nat.add_mod_right, Nat.mod_eq_of_lt i.isLt]
  · have hsn : s = n := le_antisymm hs h
    rw [hsn, Nat.mod_self, Nat.sub_zero, show i.val + n + n = i.val + 2 * n by omega,
      Nat.add_mul_mod_self_right, Nat.mod_eq_of_lt i.isLt]

theorem rollRight2_rollLeft2 {n : ℕ} {α : Type} (s : ℕ) (hs : s ≤ n)
    (m : Fin n → Fin n → α) : rollRight2 s (rollLeft2 s m) = m := by
  funext i j
  simp only [rollRight2, rollLeft2]
  have key : ∀ k : Fin n, ((k.val + (n - s % n)) % n + s) % n = k.val := by
    intro k
    rw [Nat.mod_add_mod]
    rcases Nat.lt_or_ge s n with h | h
    · rw [Nat.mod_eq_of_lt h, show k.val + (n - s) + s = k.val + n by omega,
        Nat.add_mod_right, Nat.mod_eq_of_lt k.isLt]
    · have hsn : s = n := le_antisymm hs h
      rw [hsn, Nat.mod_self, Nat.sub_zero, show k.val + n + n = k.val + 2 * n by omega,
        Nat.add_mul_mod_self_right, Nat.mod_eq_of_lt k.isLt]
  congr 1 <;> apply Fin.ext <;> simp only [] <;> rw [key]

theorem sup_prefix_mask {n : ℕ} (L : ℕ) (hL1 : 1 ≤ L) (hLn : L ≤ n)
    (im : Fin n → Bool) (hmask : ∀ i : Fin n, im i = decide (i.val < L)) :
    (Finset.univ.sup (fun i : Fin n => if im i then i.val else 0)) = L - 1 := by
  have hfun : (fun i : Fin n => if im i then i.val else 0) =
      (fun i : Fin n => if i.val < L then i.val else 0) := by
    funext i
    rw [hmask i]
    by_cases h : i.val < L <;> simp [h]
  rw [hfun]
  apply le_antisymm
  · apply Finset.sup_le
    intro i _
    split <;> omega
  · have hLn2 : L - 1 < n := by omega
    have hstep : (fun i : Fin n => if i.val < L then i.val else 0) ⟨L - 1, hLn2⟩ ≤
        Finset.univ.sup (fun i : Fin n => if i.val < L then i.val else 0) :=
      @Finset.le_sup ℕ (Fin n) _ _ Finset.univ
        (fun i : Fin n => if i.val < L then i.val else 0) ⟨L - 1, hLn2⟩ (Finset.mem_univ _)
    have hval : (fun i : Fin n => if i.val < L then i.val else 0) ⟨L - 1, hLn2⟩ = L - 1 := by
      show (if L - 1 < L then L - 1 else 0) = L - 1
      rw [if_pos (by omega)]
    rw [← hval]
    exact hstep

/-- C8 (amended): for a validity mask that is true exactly on a prefix of
length `L` with `1 ≤ L ≤ n`, `left_to_right_align` circularly shifts the
embeddings, the validity mask and the attention mask left by `L`
positions, and circularly shifting the result back right by `L` restores
all three structures (when `L = 0` the source shifts by 1, not 0). -/
theorem left_to_right_align_c8 {n : ℕ} {Emb : Type} (x : Fin n → Emb) (im : Fin n → Bool)
    (am : Fin n → Fin n → Bool) (L : ℕ)
    (hmask : ∀ i : Fin n, im i = decide (i.val < L)) (hL1 : 1 ≤ L) (hLn : L ≤ n) :
    leftToRightAlign x im am = (rollLeft L x, rollLeft L im, rollLeft2 L am)
    ∧ rollRight L (leftToRightAlign x im am).1 = x
    ∧ rollRight L (leftToRightAlign x im am).2.1 = im
    ∧ rollRight2 L (leftToRightAlign x im am).2.2 = am := by
  have hsup := sup_prefix_mask L hL1 hLn im hmask
  have hfirst : leftToRightAlign x im am = (rollLeft L x, rollLeft L im, rollLeft2 L am) := by
    simp only [leftToRightAlign, hsup]
    rw [show L - 1 + 1 = L by omega]
  refine ⟨hfirst, ?_, ?_, ?_⟩
  · rw [hfirst]
    exact rollRight_rollLeft L hLn x
  · rw [hfirst]
    exact rollRight_rollLeft L hLn im
  · rw [hfirst]
    exact rollRight2_rollLeft2 L hLn am

/-- Witness for C8 at a concrete input: three positions, valid prefix of
length 2. -/
theorem left_to_right_align_c8_witness :
    ((∀ i : Fin 3, (fun j : Fin 3 => decide (j.val < 2)) i = decide (i.val < 2))
      ∧ 1 ≤ 2 ∧ 2 ≤ 3)
    ∧ rollRight 2 (leftToRightAlign (fun i : Fin 3 => i.val) (fun j : Fin 3 => decide (j.val < 2))
        (fun _ _ => false)).1 = (fun i : Fin 3 => i.val) :=
  ⟨⟨fun _ => rfl, by omega, by omega⟩,
    (left_to_right_align_c8 (fun i : Fin 3 => i.val) (fun j : Fin 3 => decide (j.val < 2))
      (fun _ _ => false) 2 (fun _ => rfl) (by omega) (by omega)).2.1⟩

/-- C8 counterexample: with an all-invalid mask (valid-prefix length
`L = 0`) the source shifts by 1, so shifting back by `L = 0` does not
restore the embeddings: the aligned buffer at index 0 holds the original
index-1 entry. -/
theorem left_to_right_align_cex_c8 :
    (∀ i : Fin 2, (fun _ : Fin 2 => false) i = decide (i.val < 0))
    ∧ rollRight 0 (leftToRightAlign (fun i : Fin 2 => if i.val = 0 then (5 : ℕ) else 7)
        (fun _ : Fin 2 => false) (fun _ _ => false)).1 ≠
      (fun i : Fin 2 => if i.val = 0 then (5 : ℕ) else 7) := by
  constructor
  · decide
  · decide

theorem whileLoop_of_cond_false {σ : Type} (cnd : σ → Bool) (f : σ → σ) (n : ℕ) (s : σ)
    (h : cnd s = false) : whileLoop cnd f n s = s := by
  cases n with
  | zero => rfl
  | succ k => simp [whileLoop, h]

theorem whileLoop_one {σ : Type} (cnd : σ → Bool) (f : σ → σ) (n : ℕ) (s : σ)
    (h1 : cnd s = true) (h2 : cnd (f s) = false) (hn : 1 ≤ n) :
    whileLoop cnd f n s = f s := by
  cases n with
  | zero => omega
  | succ k =>
    rw [whileLoop, if_pos h1]
    exact whileLoop_of_cond_false cnd f k (f s) h2

theorem decodeStep_allEos_iff {b v : ℕ} {E C : Type} (env : DecodeEnv b v E C)
    (c : DecodeCarry b v C env.maxDecodingSteps) :
    ((decodeStep env c).allEos = true ↔
      ∀ ex, selectToken env.temperature env.sampleTok c.rng c.lastLogit ex =
        paligemmaEosToken) := by
  show (decide (∀ ex, decide (selectToken env.temperature env.sampleTok c.rng c.lastLogit ex =
    paligemmaEosToken) = true) = true ↔ _)
  simp

theorem decodeStep_step_eq {b v : ℕ} {E C : Type} (env : DecodeEnv b v E C)
    (c : DecodeCarry b v C env.maxDecodingSteps) :
    (decodeStep env c).step = c.step + 1 := rfl

theorem decodeStep_output_at_step {b v : ℕ} {E C : Type} (env : DecodeEnv b v E C)
    (c : DecodeCarry b v C env.maxDecodingSteps) (hstep : c.step < env.maxDecodingSteps)
    (ex : Fin b) :
    (decodeStep env c).outputTokens ex ⟨c.step, hstep⟩ =
      selectToken env.temperature env.sampleTok c.rng c.lastLogit ex := by
  show putAlongLastAxis c.outputTokens (fun _ _ => c.step)
    (fun ex2 _ => selectToken env.temperature env.sampleTok c.rng c.lastLogit ex2)
    ex ⟨c.step, hstep⟩ = _
  simp [putAlongLastAxis]

theorem decodeStep_output_other {b v : ℕ} {E C : Type} (env : DecodeEnv b v E C)
    (c : DecodeCarry b v C env.maxDecodingSteps) (ex : Fin b)
    (j : Fin env.maxDecodingSteps) (hj : c.step ≠ j.val) :
    (decodeStep env c).outputTokens ex j = c.outputTokens ex j := by
  show putAlongLastAxis c.outputTokens (fun _ _ => c.step)
    (fun ex2 _ => selectToken env.temperature env.sampleTok c.rng c.lastLogit ex2) ex j = _
  simp [putAlongLastAxis, hj]

/-- C1 (amended): the per-step "all sequences terminated" flag is true iff
every example's token sampled at the current step — the value the step
writes into column `step` of the output buffer — equals the end-of-sequence
token 1; tokens produced at earlier steps are not consulted.  The loop
condition is exactly `(not all_eos) and (step < max_decoding_steps)`. -/
theorem decode_eos_flag_c1 {b v : ℕ} {E C : Type} (env : DecodeEnv b v E C)
    (c : DecodeCarry b v C env.maxDecodingSteps) (hstep : c.step < env.maxDecodingSteps) :
    ((decodeStep env c).allEos = true ↔
      ∀ ex, (decodeStep env c).outputTokens ex ⟨c.step, hstep⟩ = paligemmaEosToken)
    ∧ decodeCond env c = (!c.allEos && decide (c.step < env.maxDecodingSteps)) := by
  constructor
  · rw [decodeStep_allEos_iff env c]
    constructor
    · intro h ex
      rw [decodeStep_output_at_step env c hstep ex]
      exact h ex
    · intro h ex
      have := h ex
      rw [decodeStep_output_at_step env c hstep ex] at this
      exact this
  · rfl

/-- Witness for C1's amended statement at a concrete carry of `envFlag`
with step counter 0. -/
theorem decode_eos_flag_c1_witness :
    ((0 : ℕ) < envFlag.maxDecodingSteps)
    ∧ (((decodeStep envFlag ⟨0, prefillLogitFlag, fun _ _ => 0, 0, false, 0⟩).allEos = true ↔
        ∀ ex, (decodeStep envFlag ⟨0, prefillLogitFlag, fun _ _ => 0, 0, false, 0⟩).outputTokens
          ex ⟨0, by decide⟩ = paligemmaEosToken)
      ∧ decodeCond envFlag ⟨0, prefillLogitFlag, fun _ _ => 0, 0, false, 0⟩ =
        (!false && decide ((0 : ℕ) < envFlag.maxDecodingSteps))) :=
  ⟨by decide, decode_eos_flag_c1 envFlag ⟨0, prefillLogitFlag, fun _ _ => 0, 0, false, 0⟩ (by decide)⟩

/-- Counterexample for C1 as stated: with `envFlag`, example 0 emits the
end-of-sequence token at step 0 and example 1 at step 1, so after the
second step every example has produced end-of-sequence at some prior or
current step (the output buffer rows are `[1, 0]` and `[0, 1]`), yet the
flag computed at that step is false, because it only inspects the current
step's token. -/
theorem decode_eos_flag_cex_c1 :
    (sampleActionsDecodeLoop envFlag 0 prefillLogitFlag 0).allEos = false
    ∧ (∀ ex : Fin 2, ∃ j : Fin envFlag.maxDecodingSteps,
        (sampleActionsDecodeLoop envFlag 0 prefillLogitFlag 0).outputTokens ex j =
          paligemmaEosToken)
    ∧ (sampleActionsDecodeLoop envFlag 0 prefillLogitFlag 0).step = 2 := by
  refine ⟨?_, ?_, ?_⟩ <;> decide

/-- C6: when the greedy choice (temperature 0, argmax of the prefill
logits) is the end-of-sequence token for every example at step 0, the
decode loop runs exactly one step and the output buffer holds the
end-of-sequence value 1 in column 0 for every example, with every other
column left at its initial zero. -/
theorem decode_immediate_eos_c6 {b v : ℕ} {E C : Type} (env : DecodeEnv b v E C)
    (rng0 : ℕ) (pl : Fin b → Fin v → ℚ) (cache0 : C)
    (htemp : env.temperature = 0) (hmax : 1 ≤ env.maxDecodingSteps)
    (hgreedy : ∀ ex, argmaxVec (pl ex) = paligemmaEosToken) :
    (sampleActionsDecodeLoop env rng0 pl cache0).step = 1
    ∧ ∀ (ex : Fin b) (j : Fin env.maxDecodingSteps),
        (sampleActionsDecodeLoop env rng0 pl cache0).outputTokens ex j =
          if j.val = 0 then paligemmaEosToken else 0 := by
  have hne : ¬ (0 : ℚ) < env.temperature := by
    rw [htemp]
    exact lt_irrefl 0
  have hsel : ∀ (r : ℕ), selectToken env.temperature env.sampleTok r pl =
      fun ex => argmaxVec (pl ex) := by
    intro r
    rw [selectToken, if_neg hne]
  have hc0 : decodeCond env ⟨rng0, pl, fun _ _ => 0, cache0, false, 0⟩ = true := by
    show (!false && decide ((0 : ℕ) < env.maxDecodingSteps)) = true
    simp only [Bool.not_false, Bool.true_and, decide_eq_true_eq]
    omega
  have hallEos : (decodeStep env ⟨rng0, pl, fun _ _ => 0, cache0, false, 0⟩).allEos = true := by
    rw [decodeStep_allEos_iff env ⟨rng0, pl, fun _ _ => 0, cache0, false, 0⟩]
    intro ex
    rw [hsel rng0]
    exact hgreedy ex
  have hc1 : decodeCond env (decodeStep env ⟨rng0, pl, fun _ _ => 0, cache0, false, 0⟩) = false := by
    simp [decodeCond, hallEos]
  have hres : sampleActionsDecodeLoop env rng0 pl cache0 =
      decodeStep env ⟨rng0, pl, fun _ _ => 0, cache0, false, 0⟩ :=
    whileLoop_one (decodeCond env) (decodeStep env) env.maxDecodingSteps
      ⟨rng0, pl, fun _ _ => 0, cache0, false, 0⟩ hc0 hc1 hmax
  rw [hres]
  refine ⟨rfl, ?_⟩
  intro ex j
  by_cases hj : j.val = 0
  · have hjeq : j = ⟨(0 : ℕ), by omega⟩ := by
      apply Fin.ext
      exact hj
    rw [hjeq, if_pos rfl]
    have := decodeStep_output_at_step env ⟨rng0, pl, fun _ _ => 0, cache0, false, 0⟩
      (by show 0 < env.maxDecodingSteps; omega) ex
    rw [this, hsel rng0]
    exact hgreedy ex
  · rw [if_neg hj]
    exact decodeStep_output_other env ⟨rng0, pl, fun _ _ => 0, cache0, false, 0⟩ ex j
      (fun h => hj h.symm)

/-- Witness for C6: with `envFlag` and prefill logits whose argmax is the
end-of-sequence token for both examples, the loop stops after one step. -/
theorem decode_immediate_eos_c6_witness :
    (envFlag.temperature = 0 ∧ 1 ≤ envFlag.maxDecodingSteps
      ∧ ∀ ex : Fin 2,
        argmaxVec ((fun (_ : Fin 2) (i : Fin 2) => if i.val = 1 then (1 : ℚ) else 0) ex) =
          paligemmaEosToken)
    ∧ (sampleActionsDecodeLoop envFlag 0
        (fun (_ : Fin 2) (i : Fin 2) => if i.val = 1 then (1 : ℚ) else 0) 0).step = 1 :=
  ⟨⟨rfl, by decide, by decide⟩,
    (decode_immediate_eos_c6 envFlag 0
      (fun (_ : Fin 2) (i : Fin 2) => if i.val = 1 then (1 : ℚ) else 0) 0
      rfl (by decide) (by decide)).1⟩

theorem zipMaskSum_zero (vals : List ℚ) (mask : List Bool) (h : ∀ bb ∈ mask, bb = false) :
    ((vals.zip mask).map (fun q => if q.2 then q.1 else 0)).sum = 0 := by
  apply List.sum_eq_zero
  intro x hx
  obtain ⟨q, hq, rfl⟩ := List.mem_map.mp hx
  simp [h q.2 (List.of_mem_zip hq).2]

theorem maskCount_zero (mask : List Bool) (h : ∀ bb ∈ mask, bb = false) :
    (mask.map (fun bb => if bb then (1 : ℚ) else 0)).sum = 0 := by
  apply List.sum_eq_zero
  intro x hx
  obtain ⟨bb, hbb, rfl⟩ := List.mem_map.mp hx
  simp [h bb hbb]

/-- C5: with `use_teacher_model` enabled, the distillation loss equals the
cross-entropy term plus `kl_weight` times the KL term, whose per-position
divergence is `sum over vocabulary of teacher_p * (log(teacher_p + 1e-8) -
log(student_p + 1e-8))` with probabilities the softmax of the
temperature-divided logits, masked and normalised exactly like the
cross-entropy; with the flag disabled the loss is the cross-entropy
alone. -/
theorem distill_loss_formula_c5 (cfg : DistilledConfig) (expf logf : ℚ → ℚ) (vocab : ℕ)
    (sL tL : List (List ℚ)) (prompt : List ℕ) (lossMask : List Bool) :
    (cfg.useTeacherModel = true →
      computeLossDistilled cfg expf logf vocab sL tL prompt lossMask =
        specCrossEntropy expf logf vocab sL prompt lossMask
          + cfg.klWeight * specKLLoss expf logf cfg.teacherTemperature sL tL lossMask)
    ∧ (cfg.useTeacherModel = false →
      computeLossDistilled cfg expf logf vocab sL tL prompt lossMask =
        specCrossEntropy expf logf vocab sL prompt lossMask) := by
  constructor <;> intro h <;>
    simp [computeLossDistilled, specCrossEntropy, specKLLoss, specKLDivPos, maskNormalize, h]

/-- Witness for C5 at a concrete input with the teacher flag enabled. -/
theorem distill_loss_formula_c5_witness :
    ((⟨1, 1, true, none, true, 1, 1, 1⟩ : DistilledConfig).useTeacherModel = true)
    ∧ computeLossDistilled ⟨1, 1, true, none, true, 1, 1, 1⟩ id id 1 [[0]] [[0]] [0, 0]
        [true, true] =
      specCrossEntropy id id 1 [[0]] [0, 0] [true, true]
        + (⟨1, 1, true, none, true, 1, 1, 1⟩ : DistilledConfig).klWeight *
          specKLLoss id id (⟨1, 1, true, none, true, 1, 1, 1⟩ : DistilledConfig).teacherTemperature
            [[0]] [[0]] [true, true] :=
  ⟨rfl, (distill_loss_formula_c5 ⟨1, 1, true, none, true, 1, 1, 1⟩ id id 1 [[0]] [[0]] [0, 0]
    [true, true]).1 rfl⟩

/-- C9: an example whose loss mask (after dropping the first position) is
entirely false contributes exactly zero loss in both variants — the
numerators vanish and the denominator is clipped to 1, so no division by
zero occurs. -/
theorem loss_zero_mask_c9 (cfg : DistilledConfig) (expf logf : ℚ → ℚ) (vocab : ℕ)
    (sL tL pLg : List (List ℚ)) (prompt prompt2 : List ℕ) (lm lm2 : List Bool)
    (h1 : ∀ bb ∈ lm.drop 1, bb = false) (h2 : ∀ bb ∈ lm2.drop 1, bb = false) :
    computeLossDistilled cfg expf logf vocab sL tL prompt lm = 0
    ∧ computeLossPredictive expf logf vocab pLg prompt2 lm2 = 0
    ∧ max (((lm.drop 1).map (fun bb => if bb then (1 : ℚ) else 0)).sum) 1 = 1 := by
  refine ⟨?_, ?_, ?_⟩
  · simp only [computeLossDistilled]
    rw [zipMaskSum_zero _ _ h1]
    by_cases hflag : cfg.useTeacherModel
    · rw [if_pos hflag, zipMaskSum_zero _ _ h1]
      simp
    · rw [if_neg hflag]
      simp
  · simp only [computeLossPredictive]
    rw [zipMaskSum_zero _ _ h2]
    simp
  · rw [maskCount_zero _ h1]
    simp

/-- Witness for C9 at a concrete input whose loss mask is
`[true, false]` (so the mask after dropping the first position is all
false). -/
theorem loss_zero_mask_c9_witness :
    ((∀ bb ∈ ([true, false] : List Bool).drop 1, bb = false)
      ∧ (∀ bb ∈ ([true, false] : List Bool).drop 1, bb = false))
    ∧ computeLossDistilled ⟨1, 1, true, none, true, 1, 1, 1⟩ id id 1 [[0]] [[0]] [0, 0]
        [true, false] = 0 :=
  ⟨⟨by decide, by decide⟩,
    (loss_zero_mask_c9 ⟨1, 1, true, none, true, 1, 1, 1⟩ id id 1 [[0]] [[0]] [[0]] [0, 0] [0, 0]
      [true, false] [true, false] (by decide) (by decide)).1⟩

/-- Counterexample for C2 as stated: a batch of one example under a
configuration with action horizon 2 yields one loss value, not one value
per horizon position per example (which would be two), because the
predictive loss sums over the token-position axis exactly as the
distillation loss does. -/
theorem predictive_loss_shape_cex_c2 :
    (computeLossPredictiveBatch ⟨true, 3, 2, 4⟩ id id 2
      [([[0, 0]], [0, 1], [true, true])]).length = 1
    ∧ (1 : ℕ) ≠ 1 * (⟨true, 3, 2, 4⟩ : PredictiveConfig).actionHorizon := by
  constructor
  · rfl
  · decide

/-- C2 (amended): both variants reduce their loss to exactly one scalar
per example — the predictive variant's output is indexed by the batch
alone, matching the distillation variant, despite its source annotation
advertising an extra action-horizon axis. -/
theorem loss_reduction_per_example_c2 (pcfg : PredictiveConfig) (dcfg : DistilledConfig)
    (expf logf : ℚ → ℚ) (vocab : ℕ)
    (pbatch : List (List (List ℚ) × List ℕ × List Bool))
    (dbatch : List ((List (List ℚ)) × (List (List ℚ)) × List ℕ × List Bool)) :
    (computeLossPredictiveBatch pcfg expf logf vocab pbatch).length = pbatch.length
    ∧ (computeLossDistilledBatch dcfg expf logf vocab dbatch).length = dbatch.length := by
  constructor <;> simp [computeLossPredictiveBatch, computeLossDistilledBatch]

/-- C3: when `use_teacher_model` is set but no teacher checkpoint is
configured (checkpoint loading being an unimplemented TODO in any case),
the constructor leaves `teacher_model` as `None` and
`compute_teacher_logits` therefore runs the student model's own
no-action-conditioning embedding path (`embed_inputs`) and the student's
backbone on the current observation — self-distillation. -/
theorem self_distill_fallback_c3 {Img Emb Pre : Type} (cfg : DistilledConfig)
    (B : BackboneEnv Img Emb Pre) (mkT : Unit → TeacherEnv Img Emb Pre) (obs : ObsEx Img)
    (hUse : cfg.useTeacherModel = true) (hCk : cfg.teacherCheckpoint = none) :
    initTeacherModel cfg mkT = (none : Option (TeacherEnv Img Emb Pre))
    ∧ computeTeacherLogits B (initTeacherModel cfg mkT) obs = selfDistillLogits B obs := by
  have hnone : initTeacherModel cfg mkT = (none : Option (TeacherEnv Img Emb Pre)) := by
    rw [initTeacherModel, hCk]
    simp [pyTruthy]
  refine ⟨hnone, ?_⟩
  rw [hnone]
  rfl

/-- Witness for C3 at a concrete configuration and observation. -/
theorem self_distill_fallback_c3_witness :
    ((⟨1, 1, true, none, true, 1, 1, 1⟩ : DistilledConfig).useTeacherModel = true
      ∧ (⟨1, 1, true, none, true, 1, 1, 1⟩ : DistilledConfig).teacherCheckpoint = none)
    ∧ computeTeacherLogits (⟨fun _ => [0], id, fun e _ => [e.length], fun p => [p.map
        (fun x => (x : ℚ))]⟩ : BackboneEnv ℕ ℕ ℕ)
        (initTeacherModel ⟨1, 1, true, none, true, 1, 1, 1⟩
          (fun _ => ⟨fun _ => ([], [], []), fun _ _ => [], fun _ => []⟩))
        ⟨[(0, true)], [0, 7], [true, true], [0, 1], [true, true]⟩ =
      selfDistillLogits (⟨fun _ => [0], id, fun e _ => [e.length], fun p => [p.map
        (fun x => (x : ℚ))]⟩ : BackboneEnv ℕ ℕ ℕ)
        ⟨[(0, true)], [0, 7], [true, true], [0, 1], [true, true]⟩ :=
  ⟨⟨rfl, rfl⟩,
    (self_distill_fallback_c3 ⟨1, 1, true, none, true, 1, 1, 1⟩
      (⟨fun _ => [0], id, fun e _ => [e.length], fun p => [p.map (fun x => (x : ℚ))]⟩ :
        BackboneEnv ℕ ℕ ℕ)
      (fun _ => ⟨fun _ => ([], [], []), fun _ _ => [], fun _ => []⟩)
      ⟨[(0, true)], [0, 7], [true, true], [0, 1], [true, true]⟩ rfl rfl).2⟩

theorem imgSegment_lengths {Img Emb : Type} (vit : Img → List Emb) (L : ℕ)
    (hfix : ∀ im, (vit im).length = L) (images : List (Img × Bool)) :
    (imgSegment vit images).1.length = L * images.length
    ∧ (imgSegment vit images).2.1.length = L * images.length
    ∧ (imgSegment vit images).2.2.length = L * images.length := by
  induction images with
  | nil => simp [imgSegment]
  | cons p rest ih =>
    refine ⟨?_, ?_, ?_⟩ <;>
      simp [imgSegment, hfix p.1, ih.1, ih.2.1, ih.2.2, Nat.mul_succ] <;> omega

/-- C7: for every observation, optional supplied action horizon, and
configuration flag, the embedder output length is
`L * num_images + (horizon when an action horizon is supplied and the
flag enables it, else 0) + prompt length` (with `L` the fixed
vision-encoder token count), the segments appearing in the order images,
action span, text; the action span carries all-true validity and
autoregressive flag 0.  Both the previous-action and the current-action
variants satisfy this. -/
theorem embedder_segments_c7 {Img Emb : Type} (vit : Img → List Emb) (llmEmbed : ℕ → Emb)
    (projP projC : List ℚ → Emb) (flagP flagC : Bool) (obs : ObsEx Img)
    (pa ca : Option (List (List ℚ))) (L : ℕ) (hfix : ∀ im, (vit im).length = L) :
    ((embedInputsWithPrevAction vit llmEmbed projP flagP obs pa).1.length =
      L * obs.images.length
        + (match pa, flagP with | some a, true => a.length | _, _ => 0)
        + obs.tokenizedPrompt.length)
    ∧ ((embedInputsWithPrevAction vit llmEmbed projP flagP obs pa).2.1 =
      (imgSegment vit obs.images).2.1
        ++ List.replicate (match pa, flagP with | some a, true => a.length | _, _ => 0) true
        ++ obs.tokenizedPromptMask)
    ∧ ((embedInputsWithPrevAction vit llmEmbed projP flagP obs pa).2.2 =
      (imgSegment vit obs.images).2.2
        ++ List.replicate (match pa, flagP with | some a, true => a.length | _, _ => 0) (0 : ℤ)
        ++ obs.tokenArMask)
    ∧ ((embedInputsWithCurrentAction vit llmEmbed projC flagC obs ca).1.length =
      L * obs.images.length
        + (match ca, flagC with | some a, true => a.length | _, _ => 0)
        + obs.tokenizedPrompt.length) := by
  have himg := imgSegment_lengths vit L hfix obs.images
  refine ⟨?_, ?_, ?_, ?_⟩
  · rcases pa with _ | a <;> cases flagP <;>
      simp [embedInputsWithPrevAction, himg.1] <;> omega
  · rcases pa with _ | a <;> cases flagP <;>
      simp [embedInputsWithPrevAction]
  · rcases pa with _ | a <;> cases flagP <;>
      simp [embedInputsWithPrevAction]
  · rcases ca with _ | a <;> cases flagC <;>
      simp [embedInputsWithCurrentAction, himg.1] <;> omega

/-- Witness for C7: two cameras whose encoder yields two tokens each, a
three-step action horizon, and a two-token prompt give total length
`2 * 2 + 3 + 2 = 9`. -/
theorem embedder_segments_c7_witness :
    (∀ im : Unit, (((fun _ : Unit => [7, 8]) : Unit → List ℕ) im).length = 2)
    ∧ (embedInputsWithPrevAction (fun _ : Unit => [7, 8]) id (fun _ => 0) true
        ⟨[((), true), ((), false)], [4, 5], [true, true], [1, 1], [false, false]⟩
        (some [[1], [2], [3]])).1.length =
      2 * ([((), true), ((), false)] : List (Unit × Bool)).length
        + (match (some [[1], [2], [3]] : Option (List (List ℚ))), true with
            | some a, true => a.length | _, _ => 0)
        + ([4, 5] : List ℕ).length :=
  ⟨fun _ => rfl,
    (embedder_segments_c7 (fun _ : Unit => [7, 8]) id (fun _ => 0) (fun _ => 0) true true
      ⟨[((), true), ((), false)], [4, 5], [true, true], [1, 1], [false, false]⟩
      (some [[1], [2], [3]]) (some [[1], [2], [3]]) 2 (fun _ => rfl)).1⟩

theorem lookup_setKey_ne (k k2 : String) (v : PyVal) (d : PyDict) (h : k2 ≠ k) :
    List.lookup k2 (setKey k v d) = List.lookup k2 d := by
  induction d with
  | nil =>
    simp [setKey, List.lookup, beq_eq_false_iff_ne.mpr h]
  | cons p rest ih =>
    obtain ⟨k0, v0⟩ := p
    by_cases hk : k0 = k
    · subst hk
      simp [setKey, List.lookup, beq_eq_false_iff_ne.mpr h]
    · simp [setKey, hk, List.lookup, ih]

theorem mem_keys_setKey (k k2 : String) (v : PyVal) (d : PyDict)
    (h : k2 ∈ (setKey k v d).map Prod.fst) : k2 = k ∨ k2 ∈ d.map Prod.fst := by
  induction d with
  | nil =>
    simp [setKey] at h
    exact Or.inl h
  | cons p rest ih =>
    obtain ⟨k0, v0⟩ := p
    by_cases hk : k0 = k
    · subst hk
      simp [setKey] at h
      rcases h with h | h
      · exact Or.inl h
      · exact Or.inr (by simp [h])
    · simp only [setKey, if_neg hk, List.map_cons, List.mem_cons] at h
      rcases h with h | h
      · exact Or.inr (by simp [h])
      · rcases ih h with h2 | h2
        · exact Or.inl h2
        · exact Or.inr (by simp [h2])

/-- C10: on a record that does not already contain `prev_observation`,
`prev_actions` or `skip_sample`, the observation-distillation transform
maps every key of the input to the identical value and may only add those
three keys — in particular the current observation fields and the target
actions entry are never modified. -/
theorem transform_frame_c10 (cfg : ObsDistillCfg) (data : PyDict)
    (h1 : List.lookup "prev_observation" data = none)
    (h2 : List.lookup "prev_actions" data = none)
    (h3 : List.lookup "skip_sample" data = none) :
    (∀ k, k ≠ "prev_observation" → k ≠ "prev_actions" → k ≠ "skip_sample" →
      List.lookup k (obsDistillCall cfg data) = List.lookup k data)
    ∧ (∀ k, k ∈ (obsDistillCall cfg data).map Prod.fst →
      k ∈ data.map Prod.fst ∨ k = "prev_observation" ∨ k = "prev_actions"
        ∨ k = "skip_sample") := by
  constructor
  · intro k ha hb hc
    simp only [obsDistillCall]
    split
    · rw [lookup_setKey_ne _ _ _ _ hb, lookup_setKey_ne _ _ _ _ ha]
    · split
      · rw [lookup_setKey_ne _ _ _ _ hb, lookup_setKey_ne _ _ _ _ ha]
      · split
        · rw [lookup_setKey_ne _ _ _ _ hb, lookup_setKey_ne _ _ _ _ ha]
        · split
          · rw [lookup_setKey_ne _ _ _ _ hc]
          · rfl
  · intro k hk
    simp only [obsDistillCall] at hk
    split at hk
    · rcases mem_keys_setKey _ k _ _ hk with h | h
      · exact Or.inr (Or.inr (Or.inl h))
      · rcases mem_keys_setKey _ k _ _ h with h2 | h2
        · exact Or.inr (Or.inl h2)
        · exact Or.inl h2
    · split at hk
      · rcases mem_keys_setKey _ k _ _ hk with h | h
        · exact Or.inr (Or.inr (Or.inl h))
        · rcases mem_keys_setKey _ k _ _ h with h2 | h2
          · exact Or.inr (Or.inl h2)
          · exact Or.inl h2
      · split at hk
        · rcases mem_keys_setKey _ k _ _ hk with h | h
          · exact Or.inr (Or.inr (Or.inl h))
          · rcases mem_keys_setKey _ k _ _ h with h2 | h2
            · exact Or.inr (Or.inl h2)
            · exact Or.inl h2
        · split at hk
          · rcases mem_keys_setKey _ k _ _ hk with h | h
            · exact Or.inr (Or.inr (Or.inr h))
            · exact Or.inl h
          · exact Or.inl hk

/-- Witness for C10: the transform applied to a one-field record under
`handle_first_timestep = "zero"` leaves the `state` entry untouched. -/
theorem transform_frame_c10_witness :
    (List.lookup "prev_observation" [("state", PyVal.arr [2] [1, 2])] = none
      ∧ List.lookup "prev_actions" [("state", PyVal.arr [2] [1, 2])] = none
      ∧ List.lookup "skip_sample" [("state", PyVal.arr [2] [1, 2])] = none)
    ∧ List.lookup "state" (obsDistillCall ⟨7, "zero"⟩ [("state", PyVal.arr [2] [1, 2])]) =
      List.lookup "state" [("state", PyVal.arr [2] [1, 2])] :=
  ⟨⟨rfl, rfl, rfl⟩,
    (transform_frame_c10 ⟨7, "zero"⟩ [("state", PyVal.arr [2] [1, 2])] rfl rfl rfl).1
      "state" (by decide) (by decide) (by decide)⟩
